import Mathlib

/-!
Shallow embedding of the two tools of the RPI-Central repository:
`Tools/rpi_academic_calendar_scraper.py` and `Tools/prepare_courses_for_ios.py`.
Python strings are modelled as `String` / `List Char`; the regular expressions
of the scraper are modelled by deterministic matchers (the character classes
adjacent in each pattern are disjoint, so greedy maximal-run matching agrees
with the backtracking semantics); `datetime.date` is modelled by a validated
constructor returning `Option`; functions that can raise return `Option`.
-/

namespace RPICentral

/-- ASCII letter (codes 65-90 and 97-122), the class `[A-Za-z]` of the date
regexes. -/
def isAlphaC (c : Char) : Bool :=
  (65 ≤ c.toNat && c.toNat ≤ 90) || (97 ≤ c.toNat && c.toNat ≤ 122)

/-- ASCII digit (codes 48-57), the class `\d` of the date regexes. -/
def isDigitC (c : Char) : Bool :=
  48 ≤ c.toNat && c.toNat ≤ 57

/-- Python `\s` / `str.strip` whitespace, restricted to its ASCII members
(space, tab, newline, vertical tab, form feed, carriage return). -/
def isSpaceC (c : Char) : Bool :=
  c.toNat = 32 || c.toNat = 9 || c.toNat = 10 || c.toNat = 11 ||
    c.toNat = 12 || c.toNat = 13

/-- ASCII lower-casing, as Python `str.lower` acts on ASCII letters. -/
def lowerC (c : Char) : Char :=
  if 65 ≤ c.toNat && c.toNat ≤ 90 then Char.ofNat (c.toNat + 32) else c

/-- ASCII upper-casing, as Python `str.upper` acts on ASCII letters. -/
def upperC (c : Char) : Char :=
  if 97 ≤ c.toNat && c.toNat ≤ 122 then Char.ofNat (c.toNat - 32) else c

/-- Python `str.lower` on a character list. -/
def pyLower (l : List Char) : List Char := l.map lowerC

/-- Python `str.title`: the first letter of each alphabetic run is upper-cased,
the following letters lower-cased.  The Boolean argument records whether the
previous character was a letter. -/
def pyTitleAux : Bool → List Char → List Char
  | _, [] => []
  | prevAlpha, c :: rest =>
    (if isAlphaC c then (if prevAlpha then lowerC c else upperC c) else c)
      :: pyTitleAux (isAlphaC c) rest

def pyTitle (l : List Char) : List Char := pyTitleAux false l

/-- Python `str.strip()`: drop whitespace from both ends. -/
def pyStrip (l : List Char) : List Char :=
  ((l.dropWhile isSpaceC).reverse.dropWhile isSpaceC).reverse

/-- One step of `re.sub(r"\s+", " ", s)`: a whitespace character followed by
more whitespace is dropped; the last of a run becomes a single space. -/
def collapseWs : List Char → List Char
  | [] => []
  | [c] => if isSpaceC c then [' '] else [c]
  | c :: d :: rest =>
    if isSpaceC c then
      if isSpaceC d then collapseWs (d :: rest)
      else ' ' :: collapseWs (d :: rest)
    else c :: collapseWs (d :: rest)

/-- The scraper helper `normalize_ws`: `re.sub(r"\s+", " ", s).strip()`. -/
def normalize_ws (l : List Char) : List Char :=
  pyStrip (collapseWs l)

/-- Value of a group of decimal digits, as `int` reads it. -/
def digitsToNat (l : List Char) : Nat :=
  l.foldl (fun acc c => acc * 10 + (c.toNat - 48)) 0

/-- The `MONTHS` lookup table of the scraper. -/
def MONTHS : List (String × Nat) :=
  [("Jan", 1), ("January", 1),
   ("Feb", 2), ("February", 2),
   ("Mar", 3), ("March", 3),
   ("Apr", 4), ("April", 4),
   ("May", 5),
   ("Jun", 6), ("June", 6),
   ("Jul", 7), ("July", 7),
   ("Aug", 8), ("August", 8),
   ("Sep", 9), ("Sept", 9), ("September", 9),
   ("Oct", 10), ("October", 10),
   ("Nov", 11), ("November", 11),
   ("Dec", 12), ("December", 12)]

/-- Python `MONTHS[key]` / `MONTHS.get(key)` membership lookup. -/
def monthsFind (k : List Char) : Option Nat :=
  (MONTHS.find? (fun p => p.1.data == k)).map Prod.snd

/-- The function `parse_month_name_to_num`: strip, then look up the titled 3-character
prefix (the whole token when shorter than 3), falling back to the titled
full token. -/
def parse_month_name_to_num (s : List Char) : Option Nat :=
  let t := pyStrip s
  if t = [] then none
  else
    let key := if 3 ≤ t.length then pyTitle (t.take 3) else pyTitle t
    match monthsFind key with
    | some n => some n
    | none => monthsFind (pyTitle t)

/-- The function `academic_year_to_years`. -/
def academic_year_to_years (yy : Nat) : Nat × Nat :=
  (2000 + yy, 2000 + yy + 1)

/-- The function `month_to_year`: months 8-12 belong to the fall year, the rest to the
spring year. -/
def month_to_year (month_num fall_year spring_year : Nat) : Nat :=
  if 8 ≤ month_num then fall_year else spring_year

/-- A Python `datetime.date` value. -/
structure PyDate where
  year : Nat
  month : Nat
  day : Nat
deriving DecidableEq, Repr

/-- Gregorian leap-year test used by `datetime.date` validation. -/
def isLeap (y : Nat) : Bool :=
  (y % 4 == 0 && y % 100 != 0) || (y % 400 == 0)

def daysInMonth (y m : Nat) : Nat :=
  if m = 2 then (if isLeap y then 29 else 28)
  else if m = 4 || m = 6 || m = 9 || m = 11 then 30
  else 31

/-- The `date(y, m, d)` constructor: raises (here `none`) outside the valid
range. -/
def mkDate (y m d : Nat) : Option PyDate :=
  if 1 ≤ y ∧ y ≤ 9999 ∧ 1 ≤ m ∧ m ≤ 12 ∧ 1 ≤ d ∧ d ≤ daysInMonth y m then
    some ⟨y, m, d⟩
  else none

/-- Matcher for `DATE_SINGLE_RE = ^([A-Za-z]{3,9})\s+(\d{1,2})$`, applied to
the normalized cell.  Returns the month group and the day group. -/
def matchSingle (s : List Char) : Option (List Char × List Char) :=
  let (mon, r1) := s.span isAlphaC
  if 3 ≤ mon.length && mon.length ≤ 9 then
    let (sp, r2) := r1.span isSpaceC
    if 1 ≤ sp.length then
      let (day, r3) := r2.span isDigitC
      if 1 ≤ day.length && day.length ≤ 2 && r3 == [] then
        some (mon, day)
      else none
    else none
  else none

/-- Matcher for
`DATE_RANGE_SAME_MON_RE = ^([A-Za-z]{3,9})\s+(\d{1,2})\s*-\s*(\d{1,2})$`. -/
def matchSameMon (s : List Char) : Option (List Char × List Char × List Char) :=
  let (mon, r1) := s.span isAlphaC
  if 3 ≤ mon.length && mon.length ≤ 9 then
    let (sp, r2) := r1.span isSpaceC
    if 1 ≤ sp.length then
      let (d1, r3) := r2.span isDigitC
      if 1 ≤ d1.length && d1.length ≤ 2 then
        let (_, r4) := r3.span isSpaceC
        match r4 with
        | '-' :: r5 =>
          let (_, r6) := r5.span isSpaceC
          let (d2, r7) := r6.span isDigitC
          if 1 ≤ d2.length && d2.length ≤ 2 && r7 == [] then
            some (mon, d1, d2)
          else none
        | _ => none
      else none
    else none
  else none

/-- Matcher for `DATE_RANGE_CROSS_MON_RE =
^([A-Za-z]{3,9})\s+(\d{1,2})\s*-\s*([A-Za-z]{3,9})\s+(\d{1,2})$`. -/
def matchCrossMon (s : List Char) :
    Option (List Char × List Char × List Char × List Char) :=
  let (m1, r1) := s.span isAlphaC
  if 3 ≤ m1.length && m1.length ≤ 9 then
    let (sp1, r2) := r1.span isSpaceC
    if 1 ≤ sp1.length then
      let (d1, r3) := r2.span isDigitC
      if 1 ≤ d1.length && d1.length ≤ 2 then
        let (_, r4) := r3.span isSpaceC
        match r4 with
        | '-' :: r5 =>
          let (_, r6) := r5.span isSpaceC
          let (m2, r7) := r6.span isAlphaC
          if 3 ≤ m2.length && m2.length ≤ 9 then
            let (sp2, r8) := r7.span isSpaceC
            if 1 ≤ sp2.length then
              let (d2, r9) := r8.span isDigitC
              if 1 ≤ d2.length && d2.length ≤ 2 && r9 == [] then
                some (m1, d1, m2, d2)
              else none
            else none
          else none
        | _ => none
      else none
    else none
  else none

/-- Matcher for `re.fullmatch(r"\d{1,2}", s)` of the bare-day fallback. -/
def matchBareDay (s : List Char) : Bool :=
  s.all isDigitC && 1 ≤ s.length && s.length ≤ 2

/-- The function `parse_date_cell`: returns `(start_date, end_date, new_current_month_num)`,
or `none` where the Python raises (unrecognized cell, unrecognized month, or
an out-of-range `date`).  The three regexes are tried in source order,
then the bare-day fallback. -/
def parse_date_cell (date_cell : List Char) (current_month_num : Option Nat)
    (fall_year spring_year : Nat) : Option (PyDate × PyDate × Nat) :=
  let s := normalize_ws date_cell
  match matchCrossMon s with
  | some (m1s, d1s, m2s, d2s) =>
    match parse_month_name_to_num m1s, parse_month_name_to_num m2s with
    | some m1, some m2 =>
      let d1 := digitsToNat d1s
      let d2 := digitsToNat d2s
      let y1 := month_to_year m1 fall_year spring_year
      let y2 := month_to_year m2 fall_year spring_year
      match mkDate y1 m1 d1, mkDate y2 m2 d2 with
      | some a, some b => some (a, b, m2)
      | _, _ => none
    | _, _ => none
  | none =>
  match matchSameMon s with
  | some (mons, d1s, d2s) =>
    match parse_month_name_to_num mons with
    | some mon =>
      let d1 := digitsToNat d1s
      let d2 := digitsToNat d2s
      let y := month_to_year mon fall_year spring_year
      match mkDate y mon d1, mkDate y mon d2 with
      | some a, some b => some (a, b, mon)
      | _, _ => none
    | none => none
  | none =>
  match matchSingle s with
  | some (mons, ds) =>
    match parse_month_name_to_num mons with
    | some mon =>
      let d1 := digitsToNat ds
      let y := month_to_year mon fall_year spring_year
      match mkDate y mon d1 with
      | some a => some (a, a, mon)
      | none => none
    | none => none
  | none =>
  match current_month_num with
  | some cm =>
    if matchBareDay s then
      let d1 := digitsToNat s
      let y := month_to_year cm fall_year spring_year
      match mkDate y cm d1 with
      | some a => some (a, a, cm)
      | none => none
    else none
  | none => none

/-- Python substring test `sub in hay`: `sub` is a prefix of some suffix of
`hay`. -/
def containsSub : List Char → List Char → Bool
  | [], sub => sub.isEmpty
  | c :: t, sub => sub.isPrefixOf (c :: t) || containsSub t sub

/-- The `Tags` dataclass (the internal field `break_` serializes as
`"break"`). -/
structure Tags where
  noClasses : Bool := false
  holiday : Bool := false
  followDay : Bool := false
  finals : Bool := false
  readingDays : Bool := false
  breakTag : Bool := false
deriving DecidableEq, Repr

/-- The function `infer_tags`: substring heuristics over the lower-cased title. -/
def infer_tags (title : List Char) : Tags :=
  let t := pyLower title
  { noClasses :=
      containsSub t "no classes".data ||
        (containsSub t "break-no classes".data ||
          (containsSub t "break".data && containsSub t "no classes".data))
    holiday := containsSub t "staff holiday".data || containsSub t "holiday".data
    followDay := containsSub t "follow a ".data && containsSub t " class schedule".data
    finals := containsSub t "final exams".data
    readingDays :=
      containsSub t "reading/study".data || containsSub t "reading day".data ||
        containsSub t "study day".data
    breakTag :=
      containsSub t "break-no classes".data ||
        (containsSub t "break".data && containsSub t "no classes".data) }

/-- The `Event` dataclass; dates already rendered to ISO strings as in the
scraper. -/
structure Event where
  title : String
  startDate : String
  endDate : String
  dow : Option String
  tags : Tags
deriving DecidableEq, Repr

/-- Zero-padding to width `w`, the `%02d`-style padding of `f"{h:02d}"` and
of `date.isoformat`. -/
def padNat (w n : Nat) : String :=
  let s := Nat.repr n
  ⟨List.replicate (w - s.length) '0' ++ s.data⟩

/-- The function `to_iso`, i.e. `date.isoformat()`: `YYYY-MM-DD`. -/
def to_iso (d : PyDate) : String :=
  padNat 4 d.year ++ "-" ++ padNat 2 d.month ++ "-" ++ padNat 2 d.day

/-- The day-of-week normalization of the row loop: keep the cell only when it
is exactly three ASCII letters, title-cased. -/
def normalizeDow (day_txt : List Char) : Option String :=
  if day_txt = [] then none
  else if day_txt.length = 3 && day_txt.all isAlphaC then some ⟨pyTitle day_txt⟩
  else none

/-- A `<table>` as the scraper reads it: the extracted text of each `<th>`,
and for each `<tr>` the extracted text of its `<td>` cells. -/
structure TableT where
  ths : List String
  rows : List (List String)
deriving Repr

/-- The header text `" ".join(...)` over the normalized header texts. -/
def headerText (ths : List String) : List Char :=
  (List.intersperse " ".data (ths.map (fun th => normalize_ws th.data))).flatten

/-- The table filter of `scrape`: headers must contain `Date`, `Day` and
`Event`. -/
def headerMatches (t : TableT) : Bool :=
  containsSub (headerText t.ths) "Date".data &&
    containsSub (headerText t.ths) "Day".data &&
    containsSub (headerText t.ths) "Event".data

/-- One row of the scrape loop: skips short rows, rows with an empty date or
event cell, and rows whose date cell fails to parse; otherwise appends an
`Event` and updates the current month. -/
def processRow (fall_year spring_year : Nat)
    (st : List Event × Option Nat) (row : List String) :
    List Event × Option Nat :=
  let (events, current) := st
  if row.length < 2 then st
  else if row.length < 3 then st
  else
    let date_txt := normalize_ws ((row.getD 0 "").data)
    let day_txt := normalize_ws ((row.getD 1 "").data)
    let event_txt := normalize_ws ((row.getD 2 "").data)
    if date_txt = [] || event_txt = [] then st
    else
      match parse_date_cell date_txt current fall_year spring_year with
      | none => st
      | some (start_d, end_d, cm) =>
        let ev : Event :=
          { title := ⟨event_txt⟩
            startDate := to_iso start_d
            endDate := to_iso end_d
            dow := normalizeDow day_txt
            tags := infer_tags event_txt }
        (events ++ [ev], some cm)

/-- The nested table/row loop of `scrape`, threading the current month. -/
def processTables (fall_year spring_year : Nat) (tables : List TableT) :
    List Event :=
  (tables.foldl (fun st t => t.rows.foldl (processRow fall_year spring_year) st)
    ([], none)).1

/-- The helper `find_first_date_containing`: startDate of the first event whose
lower-cased title contains the lower-cased substring. -/
def find_first_date_containing (events : List Event) (substr : String) :
    Option String :=
  (events.find? (fun ev => containsSub (pyLower ev.title.data) (pyLower substr.data))).map
    Event.startDate

/-- The helper `find_last_date_containing` (defined by the scraper, unused by it). -/
def find_last_date_containing (events : List Event) (substr : String) :
    Option String :=
  (events.reverse.find? (fun ev => containsSub (pyLower ev.title.data) (pyLower substr.data))).map
    Event.startDate

/-- Python truthiness of an `Optional[str]`: `None` and `""` are falsy. -/
def optStrTruthy : Option String → Bool
  | none => false
  | some s => !(s == "")

/-- The predicate of the term-boundary loops: the lower-cased title contains
both (already lower-case) substrings. -/
def titleHasBoth (ev : Event) (sub1 sub2 : String) : Bool :=
  containsSub (pyLower ev.title.data) sub1.data &&
    containsSub (pyLower ev.title.data) sub2.data

/-- First event whose lower-cased title contains both substrings. -/
def findFirstBoth (events : List Event) (sub1 sub2 : String) : Option String :=
  (events.find? (fun ev => titleHasBoth ev sub1 sub2)).map Event.startDate

/-- The four term boundaries. -/
structure Terms where
  fallBegin : Option String
  fallEnd : Option String
  springBegin : Option String
  springEnd : Option String
deriving DecidableEq, Repr

/-- The term-boundary inference of `scrape` (lines 294-336): `fall_begin` is
pre-seeded from the conditional expression before the loop over events
overwrites it when a title contains both substrings; the other three
boundaries come only from their loops. -/
def computeTerms (events : List Event) : Terms :=
  let fall_begin0 :=
    if optStrTruthy (find_first_date_containing events "classes begin") then
      find_first_date_containing events "fall"
    else none
  let fall_begin :=
    match findFirstBoth events "fall" "classes begin" with
    | some d => some d
    | none => fall_begin0
  { fallBegin := fall_begin
    fallEnd := findFirstBoth events "last day of fall" "classes"
    springBegin := findFirstBoth events "spring" "classes begin"
    springEnd := findFirstBoth events "last day of spring" "classes" }

/-- The scraped document (the fields the parse determines: `source` is a
constant and `generatedAt` a wall-clock timestamp, both elided). -/
structure DocT where
  academicYear : String
  terms : Terms
  events : List Event
deriving DecidableEq, Repr

/-- The function `scrape` after the HTTP fetch and HTML parse: select the calendar tables;
with no match, emit the empty document; otherwise process every row and infer
the term boundaries. -/
def scrape (tables : List TableT) (yy : Nat) : DocT :=
  let (fall_year, spring_year) := academic_year_to_years yy
  let matching := tables.filter headerMatches
  if matching.isEmpty then
    { academicYear := toString fall_year
      terms := ⟨none, none, none, none⟩
      events := [] }
  else
    let events := processTables fall_year spring_year matching
    { academicYear := toString fall_year
      terms := computeTerms events
      events := events }

/-! Embedding of `Tools/prepare_courses_for_ios.py`: merge of the catalog and the
scheduling source into one course map.  JSON dictionaries are modelled as
structures of `Option` fields (`none` = key absent or null, matching
`dict.get`); the insertion-ordered Python dict `courses_by_key` is an
association list. -/

/-- Python `str.strip()` on a `String`. -/
def stripS (s : String) : String := ⟨pyStrip s.data⟩

/-- The function `military_to_str`: `None` or a negative input gives `""`, otherwise
`f"{t // 100:02d}:{t % 100:02d}"`. -/
def military_to_str : Option Int → String
  | none => ""
  | some t =>
    if t < 0 then ""
    else padNat 2 (t.toNat / 100) ++ ":" ++ padNat 2 (t.toNat % 100)

/-- A catalog entry: `{subj, crse, name, description}`, each possibly
absent. -/
structure CatalogItem where
  subj : Option String := none
  crse : Option String := none
  name : Option String := none
  description : Option String := none
deriving DecidableEq, Repr

/-- A scheduling-source timeslot.  `timeStart`/`timeEnd` hold what
`ts.get("timeStart", -1)` returns: the default `-1` stands for an absent
key, `none` for a JSON null. -/
structure Timeslot where
  days : Option (List String) := none
  timeStart : Option Int := some (-1)
  timeEnd : Option Int := some (-1)
  location : Option String := none
deriving DecidableEq, Repr

/-- A scheduling-source section (`sectionCode` models the `"section"` key). -/
structure SchedSection where
  crn : Option Nat := none
  sectionCode : Option String := none
  instructor : Option String := none
  timeslots : List Timeslot := []
deriving DecidableEq, Repr

/-- A scheduling-source course. -/
structure SchedCourse where
  subj : Option String := none
  crse : Option String := none
  name : Option String := none
  sections : List SchedSection := []
deriving DecidableEq, Repr

/-- A school of the scheduling source. -/
structure School where
  courses : List SchedCourse := []
deriving DecidableEq, Repr

/-- An output meeting (`endTime` models the `"end"` key). -/
structure Meeting where
  days : List String
  start : String
  endTime : String
  location : String
deriving DecidableEq, Repr

/-- An output section (`sectionCode` models the `"section"` key). -/
structure SectionOut where
  crn : Option Nat
  sectionCode : String
  instructor : String
  meetings : List Meeting
deriving DecidableEq, Repr

/-- An output course record. -/
structure Course where
  subject : String
  number : String
  title : String
  description : String
  sections : List SectionOut
deriving DecidableEq, Repr

/-- The timeslot loop: a timeslot with an empty day list or an empty
formatted start or end time is dropped. -/
def meetingsOf (timeslots : List Timeslot) : List Meeting :=
  timeslots.filterMap fun ts =>
    let days := ts.days.getD []
    let start := military_to_str ts.timeStart
    let endS := military_to_str ts.timeEnd
    let location := stripS (ts.location.getD "")
    if days.isEmpty || start == "" || endS == "" then none
    else some ⟨days, start, endS, location⟩

/-- The section record appended for each scheduling-source section. -/
def sectionOut (sec : SchedSection) : SectionOut :=
  { crn := sec.crn
    sectionCode := stripS (sec.sectionCode.getD "")
    instructor := stripS (sec.instructor.getD "")
    meetings := meetingsOf sec.timeslots }

/-- The course record seeded from a catalog entry:
`item.get("name", f"{subj} {crse}").strip()` falls back only when the
`name` key is absent. -/
def catalogCourse (item : CatalogItem) : Course :=
  let subj := item.subj.getD ""
  let crse := item.crse.getD ""
  { subject := subj
    number := crse
    title := stripS (item.name.getD (subj ++ " " ++ crse))
    description := stripS (item.description.getD "")
    sections := [] }

/-- Membership `key in d` on the insertion-ordered dict. -/
def dictContains (m : List (String × Course)) (k : String) : Bool :=
  m.any (fun p => p.1 == k)

/-- Assignment `d[k] = v`: update in place when present, append otherwise. -/
def dictSet (m : List (String × Course)) (k : String) (v : Course) :
    List (String × Course) :=
  if dictContains m k then m.map (fun p => if p.1 == k then (k, v) else p)
  else m ++ [(k, v)]

/-- The key `f"{subj}-{crse}"` of a scheduling-source course. -/
def courseKey (course : SchedCourse) : String :=
  course.subj.getD "" ++ "-" ++ course.crse.getD ""

/-- Lookup `d.get(k)`. -/
def dictGet (m : List (String × Course)) (k : String) : Option Course :=
  (m.find? (fun p => p.1 == k)).map Prod.snd

/-- In-place mutation of the entry at `k` (used for the `sections`
appends). -/
def dictUpdate (m : List (String × Course)) (k : String) (f : Course → Course) :
    List (String × Course) :=
  m.map (fun p => if p.1 == k then (p.1, f p.2) else p)

/-- The catalog seeding loop. -/
def seedCatalog (catalog : List (String × CatalogItem)) :
    List (String × Course) :=
  catalog.foldl (fun m kv => dictSet m kv.1 (catalogCourse kv.2)) []

/-- The record created for a scheduling-source course with a novel key:
`(course.get("name") or f"{subj} {crse}")` treats an empty name as absent;
the description starts empty. -/
def newSchedCourse (course : SchedCourse) : Course :=
  let subj := course.subj.getD ""
  let crse := course.crse.getD ""
  let name :=
    stripS (match course.name with
            | some n => if n == "" then subj ++ " " ++ crse else n
            | none => subj ++ " " ++ crse)
  { subject := subj, number := crse, title := name,
    description := "", sections := [] }

/-- The `sections` append performed for every scheduling-source course. -/
def sectionsAppend (course : SchedCourse) (c : Course) : Course :=
  { c with sections := c.sections ++ course.sections.map sectionOut }

/-- The body of the scheduling-source merge loop for one course: create the
record when the key is novel, then append all its section records. -/
def processCourse (m : List (String × Course)) (course : SchedCourse) :
    List (String × Course) :=
  let key := courseKey course
  let m1 :=
    if !dictContains m key then dictSet m key (newSchedCourse course) else m
  dictUpdate m1 key (sectionsAppend course)

/-- The merge loop over one school. -/
def processSchool (m : List (String × Course)) (school : School) :
    List (String × Course) :=
  school.courses.foldl processCourse m

/-- The whole build of `courses_by_key`: catalog seeding, then the
scheduling-source merge. -/
def buildCoursesByKey (catalog : List (String × CatalogItem))
    (schools : List School) : List (String × Course) :=
  schools.foldl processSchool (seedCatalog catalog)

/-- Keys of the scheduling source, in loop order. -/
def schedKeys (schools : List School) : List String :=
  schools.flatMap (fun school => school.courses.map courseKey)

/-! Helper lemmas. -/

lemma mkDate_eq_some {y m d : Nat} {a : PyDate} (h : mkDate y m d = some a) :
    a = ⟨y, m, d⟩ := by
  unfold mkDate at h
  split at h
  · exact (Option.some.inj h).symm
  · cases h

/-- Lexicographic order on resolved (year, month, day) triples. -/
def tripleLe (y1 m1 d1 y2 m2 d2 : Nat) : Prop :=
  y1 < y2 ∨ (y1 = y2 ∧ (m1 < m2 ∨ (m1 = m2 ∧ d1 ≤ d2)))

/-- Date order: `a` is not after `b`, the ISO-string order of the emitted
`startDate`/`endDate` fields. -/
def dateLe (a b : PyDate) : Prop :=
  tripleLe a.year a.month a.day b.year b.month b.day

instance (a b : PyDate) : Decidable (dateLe a b) := by
  unfold dateLe tripleLe
  infer_instance

lemma dateLe_refl (a : PyDate) : dateLe a a :=
  Or.inr ⟨rfl, Or.inr ⟨rfl, Nat.le_refl _⟩⟩

/-- C3: for every date cell matching the cross-month range pattern with both
month names recognized, each endpoint's year is resolved independently by
`month_to_year`: months 8-12 get the fall year, months 1-7 the spring
year. -/
theorem crossMonthYearResolution
    (cell : List Char) (cur : Option Nat) (fy sy : Nat)
    (m1s d1s m2s d2s : List Char) (m1 m2 : Nat)
    (a b : PyDate) (cm : Nat)
    (hmc : matchCrossMon (normalize_ws cell) = some (m1s, d1s, m2s, d2s))
    (hm1 : parse_month_name_to_num m1s = some m1)
    (hm2 : parse_month_name_to_num m2s = some m2)
    (h : parse_date_cell cell cur fy sy = some (a, b, cm)) :
    a.year = month_to_year m1 fy sy ∧ b.year = month_to_year m2 fy sy ∧
    (8 ≤ m1 → a.year = fy) ∧ (m1 < 8 → a.year = sy) ∧
    (8 ≤ m2 → b.year = fy) ∧ (m2 < 8 → b.year = sy) := by
  simp only [parse_date_cell, hmc, hm1, hm2] at h
  rcases e1 : mkDate (month_to_year m1 fy sy) m1 (digitsToNat d1s) with _ | a'
  · rw [e1] at h
    cases h
  rcases e2 : mkDate (month_to_year m2 fy sy) m2 (digitsToNat d2s) with _ | b'
  · rw [e1, e2] at h
    cases h
  rw [e1, e2] at h
  simp only [Option.some.injEq, Prod.mk.injEq] at h
  obtain ⟨ha, hb, hcm⟩ := h
  have ha' := mkDate_eq_some e1
  have hb' := mkDate_eq_some e2
  subst ha hb
  subst ha' hb'
  refine ⟨rfl, rfl, ?_, ?_, ?_, ?_⟩ <;> intro h8
  · simp [month_to_year, h8]
  · simp only [month_to_year]
    rw [if_neg (by omega)]
  · simp [month_to_year, h8]
  · simp only [month_to_year]
    rw [if_neg (by omega)]

/-- Concrete instantiation of `crossMonthYearResolution` at the cell
`"Dec 23 - Jan 9"` with fall year 2025 and spring year 2026. -/
theorem crossMonthYearResolution_witness :
    (⟨2025, 12, 23⟩ : PyDate).year = month_to_year 12 2025 2026 ∧
    (⟨2026, 1, 9⟩ : PyDate).year = month_to_year 1 2025 2026 ∧
    (8 ≤ 12 → (⟨2025, 12, 23⟩ : PyDate).year = 2025) ∧
    (12 < 8 → (⟨2025, 12, 23⟩ : PyDate).year = 2026) ∧
    (8 ≤ 1 → (⟨2026, 1, 9⟩ : PyDate).year = 2025) ∧
    (1 < 8 → (⟨2026, 1, 9⟩ : PyDate).year = 2026) :=
  crossMonthYearResolution "Dec 23 - Jan 9".data none 2025 2026
    "Dec".data "23".data "Jan".data "9".data 12 1
    ⟨2025, 12, 23⟩ ⟨2026, 1, 9⟩ 1
    (by decide) (by decide) (by decide) (by decide)

/-- C9: a date cell matching the same-month range pattern with a recognized
month returns that month's number as the new current-month state, exactly as
the other patterns do. -/
theorem sameMonthRangeUpdatesCurrentMonth
    (cell : List Char) (cur : Option Nat) (fy sy : Nat)
    (mons d1s d2s : List Char) (mon : Nat)
    (a b : PyDate) (cm : Nat)
    (hnc : matchCrossMon (normalize_ws cell) = none)
    (hms : matchSameMon (normalize_ws cell) = some (mons, d1s, d2s))
    (hmon : parse_month_name_to_num mons = some mon)
    (h : parse_date_cell cell cur fy sy = some (a, b, cm)) :
    parse_date_cell cell cur fy sy = some (a, b, mon) := by
  have hcm : cm = mon := by
    simp only [parse_date_cell, hnc, hms, hmon] at h
    rcases e1 : mkDate (month_to_year mon fy sy) mon (digitsToNat d1s) with _ | a'
    · rw [e1] at h
      cases h
    rcases e2 : mkDate (month_to_year mon fy sy) mon (digitsToNat d2s) with _ | b'
    · rw [e1, e2] at h
      cases h
    rw [e1, e2] at h
    simp only [Option.some.injEq, Prod.mk.injEq] at h
    exact h.2.2.symm
  rw [← hcm]
  exact h

/-- Concrete instantiation of `sameMonthRangeUpdatesCurrentMonth` at the cell
`"Sep 25 - 26"`: the current-month state becomes September. -/
theorem sameMonthRangeUpdatesCurrentMonth_witness :
    parse_date_cell "Sep 25 - 26".data none 2025 2026 =
      some (⟨2025, 9, 25⟩, ⟨2025, 9, 26⟩, 9) :=
  sameMonthRangeUpdatesCurrentMonth "Sep 25 - 26".data none 2025 2026
    "Sep".data "25".data "26".data 9 ⟨2025, 9, 25⟩ ⟨2025, 9, 26⟩ 9
    (by decide) (by decide) (by decide) (by decide)

lemma isSpaceC_eq_false_of_alpha {c : Char} (h : isAlphaC c = true) :
    isSpaceC c = false := by
  simp only [isAlphaC, Bool.or_eq_true, Bool.and_eq_true, decide_eq_true_eq] at h
  simp only [isSpaceC, Bool.or_eq_false_iff, decide_eq_false_iff_not]
  omega

lemma pyStrip_eq_self {l : List Char} (h : ∀ c ∈ l, isSpaceC c = false) :
    pyStrip l = l := by
  unfold pyStrip
  have h1 : l.dropWhile isSpaceC = l := by
    cases l with
    | nil => rfl
    | cons c t =>
      rw [List.dropWhile_cons, if_neg]
      simp [h c (List.mem_cons_self c t)]
  rw [h1]
  have h2 : l.reverse.dropWhile isSpaceC = l.reverse := by
    cases hr : l.reverse with
    | nil => rfl
    | cons c t =>
      have hc : c ∈ l := by
        rw [← List.mem_reverse, hr]
        exact List.mem_cons_self c t
      rw [List.dropWhile_cons, if_neg]
      simp [h c hc]
  rw [h2, List.reverse_reverse]

lemma month_prefix_parses
    (s : List Char) (n : Nat)
    (halpha : ∀ c ∈ s, isAlphaC c = true)
    (hlen : 3 ≤ s.length)
    (hfind : monthsFind (pyTitle (s.take 3)) = some n) :
    parse_month_name_to_num s = some n := by
  have hs : pyStrip s = s :=
    pyStrip_eq_self (fun c hc => isSpaceC_eq_false_of_alpha (halpha c hc))
  have hne : s ≠ [] := by
    intro e
    subst e
    simp at hlen
  simp only [parse_month_name_to_num, hs, if_neg hne, if_pos hlen, hfind]

/-- C10: any alphabetic token of length at least 3 whose titled 3-character
prefix is a key of `MONTHS` is accepted by `parse_month_name_to_num` with
that month number, even when the token is no month name; in particular the
cell `"Janitor 5"` parses as January 5. -/
theorem monthAbbrevPrefixAccepted :
    (∀ (s : List Char) (n : Nat),
      (∀ c ∈ s, isAlphaC c = true) → 3 ≤ s.length →
      monthsFind (pyTitle (s.take 3)) = some n →
      parse_month_name_to_num s = some n) ∧
    parse_date_cell "Janitor 5".data none 2025 2026 =
      some (⟨2026, 1, 5⟩, ⟨2026, 1, 5⟩, 1) :=
  ⟨month_prefix_parses, by decide⟩

/-- Concrete instantiation of `monthAbbrevPrefixAccepted` at the token
`"Janitor"`, which is not a month name but begins with `Jan`. -/
theorem monthAbbrevPrefixAccepted_witness :
    parse_month_name_to_num "Janitor".data = some 1 :=
  monthAbbrevPrefixAccepted.1 "Janitor".data 1 (by decide) (by decide) (by decide)

lemma isAlphaC_eq_false_of_digit {c : Char} (h : isDigitC c = true) :
    isAlphaC c = false := by
  simp only [isDigitC, Bool.and_eq_true, decide_eq_true_eq] at h
  simp only [isAlphaC, Bool.or_eq_false_iff, Bool.and_eq_false_iff,
    decide_eq_false_iff_not]
  omega

lemma matchers_none_of_digitOnly {s : List Char}
    (hd : ∀ c ∈ s, isDigitC c = true) (hne : s ≠ []) :
    matchCrossMon s = none ∧ matchSameMon s = none ∧ matchSingle s = none := by
  cases s with
  | nil => exact absurd rfl hne
  | cons c t =>
    have hc : isAlphaC c = false :=
      isAlphaC_eq_false_of_digit (hd c (List.mem_cons_self c t))
    refine ⟨?_, ?_, ?_⟩ <;>
      simp [matchCrossMon, matchSameMon, matchSingle, List.span_eq_take_drop,
        List.takeWhile_cons, hc]

/-- C6 (amended): a date cell that normalizes to one or two digits resolves,
when a current month is established and the digits form a valid day of that
(year-resolved) month, to that day with start = end and an unchanged current
month; with no current month established the parser raises. -/
theorem bareDayFallback
    (cell s : List Char) (m fy sy : Nat)
    (hnorm : normalize_ws cell = s)
    (hdig : ∀ c ∈ s, isDigitC c = true)
    (hlen1 : 1 ≤ s.length) (hlen2 : s.length ≤ 2) :
    parse_date_cell cell none fy sy = none ∧
    (∀ a, mkDate (month_to_year m fy sy) m (digitsToNat s) = some a →
      parse_date_cell cell (some m) fy sy = some (a, a, m)) := by
  have hne : s ≠ [] := by
    cases s with
    | nil => simp at hlen1
    | cons c t => simp
  obtain ⟨h1, h2, h3⟩ := matchers_none_of_digitOnly hdig hne
  have hbare : matchBareDay s = true := by
    simp only [matchBareDay, Bool.and_eq_true, List.all_eq_true,
      decide_eq_true_eq]
    exact ⟨⟨hdig, hlen1⟩, hlen2⟩
  constructor
  · simp only [parse_date_cell, hnorm, h1, h2, h3]
  · intro a ha
    simp only [parse_date_cell, hnorm, h1, h2, h3, hbare, if_pos, ha]

/-- C6 as stated is violated at the all-digit cell `"123"`: a current month
is established, yet the parser raises rather than resolving the cell in that
month. -/
theorem bareDayFallback_counterexample :
    "123".data.all isDigitC = true ∧
    parse_date_cell "123".data (some 9) 2025 2026 = none := by
  decide

/-- Concrete instantiation of `bareDayFallback` at the cell `"15"` with
current month September of fall year 2025. -/
theorem bareDayFallback_witness :
    parse_date_cell "15".data none 2025 2026 = none ∧
    parse_date_cell "15".data (some 9) 2025 2026 =
      some (⟨2025, 9, 15⟩, ⟨2025, 9, 15⟩, 9) := by
  have h := bareDayFallback "15".data "15".data 9 2025 2026
    (by decide) (by decide) (by decide) (by decide)
  exact ⟨h.1, h.2 ⟨2025, 9, 15⟩ (by decide)⟩

/-- C2 (amended): the emitted endDate is at or after the emitted startDate
for single-date and bare-day cells unconditionally, for same-month ranges
whose day pair is non-decreasing, and for cross-month ranges whose
year-resolved (year, month, day) endpoints are non-decreasing; the parser
also accepts reversed ranges, which emit endDate before startDate. -/
theorem endDateGeStartDate
    (cell : List Char) (cur : Option Nat) (fy sy : Nat)
    (a b : PyDate) (cm : Nat)
    (h : parse_date_cell cell cur fy sy = some (a, b, cm))
    (hord :
      (matchCrossMon (normalize_ws cell) = none ∧
        matchSameMon (normalize_ws cell) = none) ∨
      (matchCrossMon (normalize_ws cell) = none ∧
        ∃ mons d1s d2s,
          matchSameMon (normalize_ws cell) = some (mons, d1s, d2s) ∧
          digitsToNat d1s ≤ digitsToNat d2s) ∨
      (∃ m1s d1s m2s d2s m1 m2,
        matchCrossMon (normalize_ws cell) = some (m1s, d1s, m2s, d2s) ∧
        parse_month_name_to_num m1s = some m1 ∧
        parse_month_name_to_num m2s = some m2 ∧
        tripleLe (month_to_year m1 fy sy) m1 (digitsToNat d1s)
          (month_to_year m2 fy sy) m2 (digitsToNat d2s))) :
    dateLe a b := by
  rcases hord with ⟨hnc, hns⟩ |
    ⟨hnc, mons, d1s, d2s, hms, hd⟩ |
    ⟨m1s, d1s, m2s, d2s, m1, m2, hmc, hm1, hm2, htri⟩
  · -- single date or bare day: start = end
    simp only [parse_date_cell, hnc, hns] at h
    rcases es : matchSingle (normalize_ws cell) with _ | ⟨mons, ds⟩
    · simp only [es] at h
      cases cur with
      | none => cases h
      | some cmv =>
        replace h :
            (if matchBareDay (normalize_ws cell) = true then
              match mkDate (month_to_year cmv fy sy) cmv
                  (digitsToNat (normalize_ws cell)) with
              | some a => some (a, a, cmv)
              | none => none
            else none) = some (a, b, cm) := h
        rcases hb : matchBareDay (normalize_ws cell) with _ | _
        · rw [if_neg (by simp [hb])] at h
          cases h
        · rw [if_pos hb] at h
          rcases e1 : mkDate (month_to_year cmv fy sy) cmv
              (digitsToNat (normalize_ws cell)) with _ | a'
          · rw [e1] at h
            cases h
          · rw [e1] at h
            simp only [Option.some.injEq, Prod.mk.injEq] at h
            obtain ⟨ha, hb', _⟩ := h
            subst ha
            rw [← hb']
            exact dateLe_refl a'
    · simp only [es] at h
      rcases em : parse_month_name_to_num mons with _ | mon
      · simp only [em] at h
        cases h
      · simp only [em] at h
        rcases e1 : mkDate (month_to_year mon fy sy) mon (digitsToNat ds)
            with _ | a'
        · rw [e1] at h
          cases h
        · rw [e1] at h
          simp only [Option.some.injEq, Prod.mk.injEq] at h
          obtain ⟨ha, hb', _⟩ := h
          subst ha
          rw [← hb']
          exact dateLe_refl a'
  · -- same-month range with non-decreasing days
    simp only [parse_date_cell, hnc, hms] at h
    rcases em : parse_month_name_to_num mons with _ | mon
    · simp only [em] at h
      cases h
    simp only [em] at h
    rcases e1 : mkDate (month_to_year mon fy sy) mon (digitsToNat d1s)
        with _ | a'
    · rw [e1] at h
      cases h
    rcases e2 : mkDate (month_to_year mon fy sy) mon (digitsToNat d2s)
        with _ | b'
    · rw [e1, e2] at h
      cases h
    rw [e1, e2] at h
    simp only [Option.some.injEq, Prod.mk.injEq] at h
    obtain ⟨ha, hb', _⟩ := h
    have ha' := mkDate_eq_some e1
    have hb'' := mkDate_eq_some e2
    subst ha hb'
    subst ha' hb''
    exact Or.inr ⟨rfl, Or.inr ⟨rfl, hd⟩⟩
  · -- cross-month range with ordered resolved endpoints
    simp only [parse_date_cell, hmc, hm1, hm2] at h
    rcases e1 : mkDate (month_to_year m1 fy sy) m1 (digitsToNat d1s)
        with _ | a'
    · rw [e1] at h
      cases h
    rcases e2 : mkDate (month_to_year m2 fy sy) m2 (digitsToNat d2s)
        with _ | b'
    · rw [e1, e2] at h
      cases h
    rw [e1, e2] at h
    simp only [Option.some.injEq, Prod.mk.injEq] at h
    obtain ⟨ha, hb', _⟩ := h
    have ha' := mkDate_eq_some e1
    have hb'' := mkDate_eq_some e2
    subst ha hb'
    subst ha' hb''
    exact htri

/-- C2 as stated is violated by the reversed same-month range
`"Sep 26 - 25"`, accepted with endDate strictly before startDate. -/
theorem endDateGeStartDate_counterexample :
    parse_date_cell "Sep 26 - 25".data none 2025 2026 =
      some (⟨2025, 9, 26⟩, ⟨2025, 9, 25⟩, 9) ∧
    ¬ dateLe ⟨2025, 9, 26⟩ ⟨2025, 9, 25⟩ := by
  decide

/-- Concrete instantiation of `endDateGeStartDate` at the single-date cell
`"Sep 1"`. -/
theorem endDateGeStartDate_witness :
    dateLe ⟨2025, 9, 1⟩ ⟨2025, 9, 1⟩ :=
  endDateGeStartDate "Sep 1".data none 2025 2026 ⟨2025, 9, 1⟩ ⟨2025, 9, 1⟩ 9
    (by decide) (Or.inl ⟨by decide, by decide⟩)

/-- C4 (amended): the catalog course title falls back to the subject and
course number joined by a space exactly when the `name` key is absent; a
present `name` (blank included) is used as-is after stripping, so a blank
name yields an empty title. -/
theorem catalogTitleFallback (item : CatalogItem) :
    (item.name = none →
      (catalogCourse item).title =
        stripS (item.subj.getD "" ++ " " ++ item.crse.getD "")) ∧
    (∀ n, item.name = some n → (catalogCourse item).title = stripS n) := by
  constructor
  · intro h
    simp [catalogCourse, h]
  · intro n h
    simp [catalogCourse, h]

/-- C4 as stated is violated by a catalog entry whose `name` is present but
blank: the resulting course title is empty, not `"CSCI 2300"`. -/
theorem catalogTitleFallback_counterexample :
    (catalogCourse
        { subj := some "CSCI", crse := some "2300",
          name := some "", description := none }).title = "" ∧
    (catalogCourse
        { subj := some "CSCI", crse := some "2300",
          name := some "", description := none }).title ≠ "CSCI 2300" := by
  decide

/-- Concrete instantiation of `catalogTitleFallback` at an entry with no
`name` key. -/
theorem catalogTitleFallback_witness :
    (catalogCourse
        { subj := some "CSCI", crse := some "2300",
          name := none, description := none }).title =
      stripS ("CSCI" ++ " " ++ "2300") :=
  (catalogTitleFallback
    { subj := some "CSCI", crse := some "2300",
      name := none, description := none }).1 rfl

/-- Value of an ASCII digit character. -/
def charDigitVal (c : Char) : Option Nat :=
  if isDigitC c then some (c.toNat - 48) else none

/-- Decoder of the `HH:MM` shape: exactly two digits, a colon, two
digits. -/
def parseHHMM (s : String) : Option (Nat × Nat) :=
  match s.data with
  | [a, b, ':', c, d] =>
    match charDigitVal a, charDigitVal b, charDigitVal c, charDigitVal d with
    | some va, some vb, some vc, some vd =>
      some (va * 10 + vb, vc * 10 + vd)
    | _, _, _, _ => none
  | _ => none

lemma pad2_digits : ∀ n, n < 100 →
    (padNat 2 n).data = [Char.ofNat (48 + n / 10), Char.ofNat (48 + n % 10)] := by
  decide

lemma charDigitVal_ofNat : ∀ k, k < 10 →
    charDigitVal (Char.ofNat (48 + k)) = some k := by
  decide

/-- C7: `military_to_str` renders every integer 0-2359 with minute-of-hour
below 60 as zero-padded `HH:MM` with `HH` the quotient and `MM` the
remainder by 100 (930 becomes 09:30, 1430 becomes 14:30); negative and null
inputs give the empty string. -/
theorem militaryTimeFormat :
    military_to_str none = "" ∧
    (∀ t : Int, t < 0 → military_to_str (some t) = "") ∧
    military_to_str (some 930) = "09:30" ∧
    military_to_str (some 1430) = "14:30" ∧
    (∀ t : Int, 0 ≤ t → t ≤ 2359 → t % 100 < 60 →
      parseHHMM (military_to_str (some t)) =
        some (t.toNat / 100, t.toNat % 100)) := by
  refine ⟨rfl, ?_, by decide, by decide, ?_⟩
  · intro t ht
    simp only [military_to_str]
    rw [if_pos ht]
  · intro t ht0 ht1 _
    have hh : t.toNat / 100 < 100 := by omega
    have hm : t.toNat % 100 < 100 := by omega
    have e1 := charDigitVal_ofNat (t.toNat / 100 / 10) (by omega)
    have e2 := charDigitVal_ofNat (t.toNat / 100 % 10) (by omega)
    have e3 := charDigitVal_ofNat (t.toNat % 100 / 10) (by omega)
    have e4 := charDigitVal_ofNat (t.toNat % 100 % 10) (by omega)
    have hcolon : (":" : String).data = [':'] := rfl
    simp only [military_to_str]
    rw [if_neg (by omega)]
    unfold parseHHMM
    rw [String.data_append, String.data_append, hcolon,
      pad2_digits _ hh, pad2_digits _ hm]
    simp only [List.cons_append, List.nil_append, e1, e2, e3, e4,
      Option.some.injEq, Prod.mk.injEq]
    omega

/-- Concrete instantiation of `militaryTimeFormat` at military time 930:
the formatted string decodes back to hours 9 and minutes 30. -/
theorem militaryTimeFormat_witness :
    parseHHMM (military_to_str (some 930)) =
      some ((930 : Int).toNat / 100, (930 : Int).toNat % 100) :=
  militaryTimeFormat.2.2.2.2 930 (by decide) (by decide) (by decide)

/-- C8: when no table's concatenated header text contains all of `Date`,
`Day` and `Event`, `scrape` does not fail: it returns the well-formed
document with an empty events list and all four term boundaries null. -/
theorem noMatchingTablesYieldsEmptyDoc
    (tables : List TableT) (yy : Nat)
    (h : ∀ t ∈ tables, headerMatches t = false) :
    scrape tables yy =
      { academicYear := toString (2000 + yy),
        terms := ⟨none, none, none, none⟩, events := [] } := by
  have hf : tables.filter headerMatches = [] :=
    List.filter_eq_nil_iff.mpr (by
      intro a ha
      simp [h a ha])
  simp [scrape, academic_year_to_years, hf]

/-- Concrete instantiation of `noMatchingTablesYieldsEmptyDoc` at a single
table whose header lacks an `Event` column. -/
theorem noMatchingTablesYieldsEmptyDoc_witness :
    scrape [⟨["Date", "Day"], [["Sep 1", "Mon", "Event A"]]⟩] 25 =
      { academicYear := toString (2000 + 25),
        terms := ⟨none, none, none, none⟩, events := [] } :=
  noMatchingTablesYieldsEmptyDoc [⟨["Date", "Day"], [["Sep 1", "Mon", "Event A"]]⟩]
    25 (by decide)

lemma find?_append_first {α : Type} (p : α → Bool) :
    ∀ (l₁ : List α) (ev : α) (l₂ : List α),
      (∀ e ∈ l₁, p e = false) → p ev = true →
      (l₁ ++ ev :: l₂).find? p = some ev := by
  intro l₁
  induction l₁ with
  | nil =>
    intro ev l₂ _ hp
    simp [List.find?_cons_of_pos _ hp]
  | cons a t ih =>
    intro ev l₂ h hp
    have ha : p a = false := h a (List.mem_cons_self a t)
    rw [List.cons_append, List.find?_cons_of_neg _ (by simp [ha])]
    exact ih ev l₂ (fun e he => h e (List.mem_cons_of_mem _ he)) hp

/-- C1 (amended): each of the four term boundaries is the startDate of the
first event (in document order) whose lower-cased title contains both of its
trigger substrings; when no single title matches both, `fall.classesEnd`,
`spring.classesBegin` and `spring.classesEnd` remain null, but
`fall.classesBegin` falls back to the startDate of the first event whose
title contains "fall", provided some event's title contains "classes begin"
with a non-empty startDate, and is null only otherwise. -/
theorem termBoundaryInference (events : List Event) :
    ((∀ e ∈ events, titleHasBoth e "fall" "classes begin" = false) →
      (computeTerms events).fallBegin =
        (if optStrTruthy (find_first_date_containing events "classes begin") then
          find_first_date_containing events "fall"
        else none)) ∧
    (∀ l₁ ev l₂, events = l₁ ++ ev :: l₂ →
      (∀ e ∈ l₁, titleHasBoth e "fall" "classes begin" = false) →
      titleHasBoth ev "fall" "classes begin" = true →
      (computeTerms events).fallBegin = some ev.startDate) ∧
    ((∀ e ∈ events, titleHasBoth e "last day of fall" "classes" = false) →
      (computeTerms events).fallEnd = none) ∧
    (∀ l₁ ev l₂, events = l₁ ++ ev :: l₂ →
      (∀ e ∈ l₁, titleHasBoth e "last day of fall" "classes" = false) →
      titleHasBoth ev "last day of fall" "classes" = true →
      (computeTerms events).fallEnd = some ev.startDate) ∧
    ((∀ e ∈ events, titleHasBoth e "spring" "classes begin" = false) →
      (computeTerms events).springBegin = none) ∧
    (∀ l₁ ev l₂, events = l₁ ++ ev :: l₂ →
      (∀ e ∈ l₁, titleHasBoth e "spring" "classes begin" = false) →
      titleHasBoth ev "spring" "classes begin" = true →
      (computeTerms events).springBegin = some ev.startDate) ∧
    ((∀ e ∈ events, titleHasBoth e "last day of spring" "classes" = false) →
      (computeTerms events).springEnd = none) ∧
    (∀ l₁ ev l₂, events = l₁ ++ ev :: l₂ →
      (∀ e ∈ l₁, titleHasBoth e "last day of spring" "classes" = false) →
      titleHasBoth ev "last day of spring" "classes" = true →
      (computeTerms events).springEnd = some ev.startDate) := by
  have hnone : ∀ (s1 s2 : String),
      (∀ e ∈ events, titleHasBoth e s1 s2 = false) →
      findFirstBoth events s1 s2 = none := by
    intro s1 s2 h
    unfold findFirstBoth
    rw [List.find?_eq_none.mpr (by intro x hx; simp [h x hx])]
    rfl
  have hfirst : ∀ (s1 s2 : String) l₁ ev l₂, events = l₁ ++ ev :: l₂ →
      (∀ e ∈ l₁, titleHasBoth e s1 s2 = false) →
      titleHasBoth ev s1 s2 = true →
      findFirstBoth events s1 s2 = some ev.startDate := by
    intro s1 s2 l₁ ev l₂ he h1 hev
    unfold findFirstBoth
    rw [he, find?_append_first _ l₁ ev l₂ h1 hev]
    rfl
  refine ⟨?_, ?_, ?_, ?_, ?_, ?_, ?_, ?_⟩
  · intro h
    simp only [computeTerms, hnone _ _ h]
  · intro l₁ ev l₂ he h1 hev
    simp only [computeTerms, hfirst _ _ l₁ ev l₂ he h1 hev]
  · intro h
    simp only [computeTerms, hnone _ _ h]
  · intro l₁ ev l₂ he h1 hev
    simp only [computeTerms, hfirst _ _ l₁ ev l₂ he h1 hev]
  · intro h
    simp only [computeTerms, hnone _ _ h]
  · intro l₁ ev l₂ he h1 hev
    simp only [computeTerms, hfirst _ _ l₁ ev l₂ he h1 hev]
  · intro h
    simp only [computeTerms, hnone _ _ h]
  · intro l₁ ev l₂ he h1 hev
    simp only [computeTerms, hfirst _ _ l₁ ev l₂ he h1 hev]

/-- Two events exercising the `fall.classesBegin` fallback: neither title
contains both "fall" and "classes begin". -/
def fallbackEvents : List Event :=
  [{ title := "Spring Classes Begin", startDate := "2026-01-05",
     endDate := "2026-01-05", dow := none, tags := {} },
   { title := "Last Day of Fall Classes", startDate := "2025-12-10",
     endDate := "2025-12-10", dow := none, tags := {} }]

/-- C1 as stated is violated: no event title of `fallbackEvents` contains
both "fall" and "classes begin", yet `fall.classesBegin` is not null — it is
the startDate of the first title containing "fall". -/
theorem termBoundaryInference_counterexample :
    fallbackEvents.all
      (fun ev => !(titleHasBoth ev "fall" "classes begin")) = true ∧
    (computeTerms fallbackEvents).fallBegin = some "2025-12-10" := by
  decide

/-- A lone event whose title contains both "fall" and "classes begin". -/
def fallBeginEvent : Event :=
  { title := "Fall 2025 Classes Begin", startDate := "2025-08-25",
    endDate := "2025-08-25", dow := none, tags := {} }

/-- Concrete instantiation of `termBoundaryInference`: a lone event titled
`Fall 2025 Classes Begin` sets `fall.classesBegin` to its startDate. -/
theorem termBoundaryInference_witness :
    (computeTerms [fallBeginEvent]).fallBegin = some "2025-08-25" := by
  have h := (termBoundaryInference [fallBeginEvent]).2.1
    [] fallBeginEvent [] rfl (by simp) (by decide)
  exact h

/-! Lemmas about the insertion-ordered dict operations. -/

lemma dictContains_iff (m : List (String × Course)) (k : String) :
    dictContains m k = true ↔ k ∈ m.map Prod.fst := by
  simp only [dictContains, List.any_eq_true, List.mem_map, beq_iff_eq]

lemma dictContains_cons (p : String × Course) (t : List (String × Course))
    (k : String) :
    dictContains (p :: t) k = ((p.1 == k) || dictContains t k) := rfl

lemma dictGet_some_mem {m : List (String × Course)} {k : String} {c : Course}
    (h : dictGet m k = some c) : k ∈ m.map Prod.fst := by
  unfold dictGet at h
  rcases hf : m.find? (fun p => p.1 == k) with _ | p
  · rw [hf] at h
    cases h
  · have hp := List.find?_some hf
    have hm := List.mem_of_find?_eq_some hf
    simp only [beq_iff_eq] at hp
    exact List.mem_map.mpr ⟨p, hm, hp⟩

lemma dictGet_mem {m : List (String × Course)} {k : String}
    (h : k ∈ m.map Prod.fst) : ∃ c, dictGet m k = some c := by
  induction m with
  | nil => simp at h
  | cons p t ih =>
    by_cases hpk : p.1 = k
    · refine ⟨p.2, ?_⟩
      unfold dictGet
      rw [List.find?_cons_of_pos _ (by simp [hpk])]
      rfl
    · have hk : k ∈ t.map Prod.fst := by
        rcases List.mem_map.mp h with ⟨a, ha, hae⟩
        rcases List.mem_cons.mp ha with rfl | hat
        · exact absurd hae hpk
        · exact List.mem_map.mpr ⟨a, hat, hae⟩
      rcases ih hk with ⟨c, hc⟩
      refine ⟨c, ?_⟩
      unfold dictGet at hc ⊢
      rw [List.find?_cons_of_neg _ (by simp [hpk])]
      exact hc

lemma dictSet_cons_eq {p : String × Course} {t : List (String × Course)}
    {k : String} (hpk : (p.1 == k) = true) (v : Course) :
    dictSet (p :: t) k v =
      (k, v) :: t.map (fun q => if q.1 == k then (k, v) else q) := by
  unfold dictSet
  rw [dictContains_cons, hpk, Bool.true_or, if_pos rfl]
  have hp : p.1 = k := by simpa using hpk
  simp [List.map_cons, hp]

lemma dictSet_cons_ne {p : String × Course} {t : List (String × Course)}
    {k : String} (hpk : (p.1 == k) = false) (v : Course) :
    dictSet (p :: t) k v = p :: dictSet t k v := by
  unfold dictSet
  rw [dictContains_cons, hpk, Bool.false_or]
  have hp : ¬ p.1 = k := by simpa using hpk
  rcases hct : dictContains t k with _ | _
  · simp [hct]
  · simp [hct, hp]

lemma dictSet_map_fst (m : List (String × Course)) (k : String) (v : Course) :
    (m.map (fun p => if p.1 == k then (k, v) else p)).map Prod.fst =
      m.map Prod.fst := by
  rw [List.map_map]
  apply List.map_congr_left
  intro p _
  simp only [Function.comp_apply]
  by_cases h : p.1 = k
  · rw [if_pos (by simp [h])]
    simp [h]
  · rw [if_neg (by simp [h])]

lemma dictSet_keys (m : List (String × Course)) (k : String) (v : Course) :
    (dictSet m k v).map Prod.fst =
      if dictContains m k then m.map Prod.fst else m.map Prod.fst ++ [k] := by
  unfold dictSet
  split
  · exact dictSet_map_fst m k v
  · simp

lemma dictSet_keys_mem (m : List (String × Course)) (k k' : String)
    (v : Course) :
    k' ∈ (dictSet m k v).map Prod.fst ↔ k' ∈ m.map Prod.fst ∨ k' = k := by
  rw [dictSet_keys]
  rcases hc : dictContains m k with _ | _
  · simp [hc]
  · have hk : k ∈ m.map Prod.fst := (dictContains_iff m k).mp hc
    rw [if_pos rfl]
    constructor
    · exact Or.inl
    · rintro (h | rfl)
      · exact h
      · exact hk

lemma dictSet_keys_nodup (m : List (String × Course)) (k : String) (v : Course)
    (h : (m.map Prod.fst).Nodup) : ((dictSet m k v).map Prod.fst).Nodup := by
  rw [dictSet_keys]
  rcases hc : dictContains m k with _ | _
  · have hk : k ∉ m.map Prod.fst := by
      intro hmem
      rw [(dictContains_iff m k).mpr hmem] at hc
      cases hc
    rw [if_neg (by simp)]
    rw [List.nodup_append]
    exact ⟨h, List.nodup_singleton k, by
      intro a ha hb
      simp only [List.mem_singleton] at hb
      subst hb
      exact hk ha⟩
  · rw [if_pos rfl]
    exact h

lemma dictGet_map_set_ne (t : List (String × Course)) (k k' : String)
    (v : Course) (hne : k' ≠ k) :
    dictGet (t.map (fun q => if q.1 == k then (k, v) else q)) k' =
      dictGet t k' := by
  induction t with
  | nil => rfl
  | cons q t ih =>
    by_cases hq : q.1 = k
    · have h1 : (if q.1 == k then (k, v) else q) = (k, v) := by simp [hq]
      unfold dictGet at ih ⊢
      simp only [List.map_cons, h1]
      rw [List.find?_cons_of_neg _ (by
          simp only [beq_iff_eq]
          exact fun e => hne e.symm),
        List.find?_cons_of_neg _ (by
          simp only [beq_iff_eq, hq]
          exact fun e => hne e.symm)]
      exact ih
    · have h1 : (if q.1 == k then (k, v) else q) = q := by simp [hq]
      simp only [List.map_cons, h1]
      by_cases hq' : q.1 = k'
      · unfold dictGet
        rw [List.find?_cons_of_pos _ (by simp [hq']),
          List.find?_cons_of_pos _ (by simp [hq'])]
      · unfold dictGet at ih ⊢
        rw [List.find?_cons_of_neg _ (by simp [hq']),
          List.find?_cons_of_neg _ (by simp [hq'])]
        exact ih

lemma dictGet_dictSet_self (m : List (String × Course)) (k : String)
    (v : Course) : dictGet (dictSet m k v) k = some v := by
  induction m with
  | nil =>
    unfold dictSet
    rw [if_neg (by simp [dictContains])]
    unfold dictGet
    rw [List.nil_append, List.find?_cons_of_pos _ (by simp)]
    rfl
  | cons p t ih =>
    by_cases hpk : p.1 = k
    · rw [dictSet_cons_eq (by simp [hpk]) v]
      unfold dictGet
      rw [List.find?_cons_of_pos _ (by simp)]
      rfl
    · rw [dictSet_cons_ne (by simp [hpk]) v]
      unfold dictGet at ih ⊢
      rw [List.find?_cons_of_neg _ (by simp [hpk])]
      exact ih

lemma dictGet_dictSet_ne (m : List (String × Course)) (k k' : String)
    (v : Course) (hne : k' ≠ k) :
    dictGet (dictSet m k v) k' = dictGet m k' := by
  induction m with
  | nil =>
    unfold dictSet
    rw [if_neg (by simp [dictContains])]
    unfold dictGet
    rw [List.nil_append, List.find?_cons_of_neg _ (by
        simp only [beq_iff_eq]
        exact fun e => hne e.symm)]
  | cons p t ih =>
    by_cases hpk : p.1 = k
    · rw [dictSet_cons_eq (by simp [hpk]) v]
      have h3 : dictGet (p :: t) k' = dictGet t k' := by
        unfold dictGet
        rw [List.find?_cons_of_neg _ (by
            simp only [beq_iff_eq, hpk]
            exact fun e => hne e.symm)]
      rw [h3]
      unfold dictGet
      rw [List.find?_cons_of_neg _ (by
          simp only [beq_iff_eq]
          exact fun e => hne e.symm)]
      have := dictGet_map_set_ne t k k' v hne
      unfold dictGet at this
      exact this
    · rw [dictSet_cons_ne (by simp [hpk]) v]
      by_cases hp' : p.1 = k'
      · unfold dictGet
        rw [List.find?_cons_of_pos _ (by simp [hp']),
          List.find?_cons_of_pos _ (by simp [hp'])]
      · unfold dictGet at ih ⊢
        rw [List.find?_cons_of_neg _ (by simp [hp']),
          List.find?_cons_of_neg _ (by simp [hp'])]
        exact ih

lemma dictUpdate_map_fst (m : List (String × Course)) (k : String)
    (f : Course → Course) :
    (dictUpdate m k f).map Prod.fst = m.map Prod.fst := by
  unfold dictUpdate
  rw [List.map_map]
  apply List.map_congr_left
  intro p _
  simp only [Function.comp_apply]
  by_cases h : p.1 = k
  · rw [if_pos (by simp [h])]
  · rw [if_neg (by simp [h])]

lemma dictGet_dictUpdate_ne (m : List (String × Course)) (k k' : String)
    (f : Course → Course) (hne : k' ≠ k) :
    dictGet (dictUpdate m k f) k' = dictGet m k' := by
  induction m with
  | nil => rfl
  | cons q t ih =>
    unfold dictUpdate at ih ⊢
    simp only [List.map_cons]
    by_cases hq' : q.1 = k'
    · have hqk : (q.1 == k) = false := by
        simp only [beq_eq_false_iff_ne, ne_eq, hq']
        exact hne
      rw [if_neg (by simp [hqk])]
      unfold dictGet
      rw [List.find?_cons_of_pos _ (by simp [hq']),
        List.find?_cons_of_pos _ (by simp [hq'])]
    · by_cases hqk : q.1 = k
      · rw [if_pos (by simp [hqk])]
        unfold dictGet at ih ⊢
        rw [List.find?_cons_of_neg _ (by simp [hq']),
          List.find?_cons_of_neg _ (by simp [hq'])]
        exact ih
      · rw [if_neg (by simp [hqk])]
        unfold dictGet at ih ⊢
        rw [List.find?_cons_of_neg _ (by simp [hq']),
          List.find?_cons_of_neg _ (by simp [hq'])]
        exact ih

lemma dictGet_dictUpdate_self (m : List (String × Course)) (k : String)
    (f : Course → Course) (c : Course) (h : dictGet m k = some c) :
    dictGet (dictUpdate m k f) k = some (f c) := by
  induction m with
  | nil => cases h
  | cons q t ih =>
    unfold dictUpdate at ih ⊢
    simp only [List.map_cons]
    by_cases hq : q.1 = k
    · have hc : c = q.2 := by
        unfold dictGet at h
        rw [List.find?_cons_of_pos _ (by simp [hq])] at h
        exact (Option.some.inj h).symm
      rw [if_pos (by simp [hq])]
      unfold dictGet
      rw [List.find?_cons_of_pos _ (by simp [hq])]
      rw [hc]
      rfl
    · have h' : dictGet t k = some c := by
        unfold dictGet at h ⊢
        rw [List.find?_cons_of_neg _ (by simp [hq])] at h
        exact h
      rw [if_neg (by simp [hq])]
      unfold dictGet at ih ⊢
      rw [List.find?_cons_of_neg _ (by simp [hq])]
      exact ih h'

lemma dictGet_dictUpdate_none (m : List (String × Course)) (k : String)
    (f : Course → Course) (h : dictGet m k = none) :
    dictGet (dictUpdate m k f) k = none := by
  rcases hg : dictGet (dictUpdate m k f) k with _ | c
  · rfl
  · exfalso
    have hk := dictGet_some_mem hg
    rw [dictUpdate_map_fst] at hk
    rcases dictGet_mem hk with ⟨c', hc'⟩
    rw [h] at hc'
    cases hc'

/-! Invariants of the course-merge loops. -/

lemma processCourse_eq_contains {m : List (String × Course)} {c : SchedCourse}
    (hc : dictContains m (courseKey c) = true) :
    processCourse m c = dictUpdate m (courseKey c) (sectionsAppend c) := by
  simp only [processCourse, hc]
  rw [if_neg (by simp)]

lemma processCourse_eq_new {m : List (String × Course)} {c : SchedCourse}
    (hc : dictContains m (courseKey c) = false) :
    processCourse m c =
      dictUpdate (dictSet m (courseKey c) (newSchedCourse c)) (courseKey c)
        (sectionsAppend c) := by
  simp only [processCourse, hc]
  rw [if_pos (by simp)]

lemma processCourse_keys_mem (m : List (String × Course)) (c : SchedCourse)
    (k : String) :
    k ∈ (processCourse m c).map Prod.fst ↔
      k ∈ m.map Prod.fst ∨ k = courseKey c := by
  rcases hc : dictContains m (courseKey c) with _ | _
  · rw [processCourse_eq_new hc, dictUpdate_map_fst, dictSet_keys_mem]
  · rw [processCourse_eq_contains hc, dictUpdate_map_fst]
    have hk := (dictContains_iff m (courseKey c)).mp hc
    constructor
    · exact Or.inl
    · rintro (h | rfl)
      · exact h
      · exact hk

lemma processCourse_nodup (m : List (String × Course)) (c : SchedCourse)
    (h : (m.map Prod.fst).Nodup) :
    ((processCourse m c).map Prod.fst).Nodup := by
  rcases hc : dictContains m (courseKey c) with _ | _
  · rw [processCourse_eq_new hc, dictUpdate_map_fst]
    exact dictSet_keys_nodup m _ _ h
  · rw [processCourse_eq_contains hc, dictUpdate_map_fst]
    exact h

lemma processCourse_get_ne (m : List (String × Course)) (c : SchedCourse)
    (k : String) (hne : k ≠ courseKey c) :
    dictGet (processCourse m c) k = dictGet m k := by
  rcases hc : dictContains m (courseKey c) with _ | _
  · rw [processCourse_eq_new hc, dictGet_dictUpdate_ne _ _ _ _ hne,
      dictGet_dictSet_ne _ _ _ _ hne]
  · rw [processCourse_eq_contains hc, dictGet_dictUpdate_ne _ _ _ _ hne]

lemma processCourse_desc (m : List (String × Course)) (c : SchedCourse)
    (k : String)
    (h : ∀ c', dictGet m k = some c' → c'.description = "") :
    ∀ c', dictGet (processCourse m c) k = some c' → c'.description = "" := by
  intro c' hc'
  by_cases hk : k = courseKey c
  · subst hk
    rcases hcont : dictContains m (courseKey c) with _ | _
    · rw [processCourse_eq_new hcont] at hc'
      have hset := dictGet_dictSet_self m (courseKey c) (newSchedCourse c)
      have hupd := dictGet_dictUpdate_self _ _ (sectionsAppend c) _ hset
      rw [hupd] at hc'
      rw [← Option.some.inj hc']
      rfl
    · rw [processCourse_eq_contains hcont] at hc'
      rcases dictGet_mem ((dictContains_iff _ _).mp hcont) with ⟨c₀, hc₀⟩
      have hupd := dictGet_dictUpdate_self m _ (sectionsAppend c) c₀ hc₀
      rw [hupd] at hc'
      rw [← Option.some.inj hc']
      exact h c₀ hc₀
  · rw [processCourse_get_ne m c k hk] at hc'
    exact h c' hc'

lemma foldl_processCourse_keys_mem (cs : List SchedCourse) :
    ∀ (m : List (String × Course)) (k : String),
      k ∈ ((cs.foldl processCourse m).map Prod.fst) ↔
        k ∈ m.map Prod.fst ∨ k ∈ cs.map courseKey := by
  induction cs with
  | nil =>
    intro m k
    simp
  | cons c t ih =>
    intro m k
    rw [List.foldl_cons, ih, processCourse_keys_mem]
    simp only [List.map_cons, List.mem_cons]
    tauto

lemma foldl_processCourse_nodup (cs : List SchedCourse) :
    ∀ (m : List (String × Course)), (m.map Prod.fst).Nodup →
      ((cs.foldl processCourse m).map Prod.fst).Nodup := by
  induction cs with
  | nil =>
    intro m h
    exact h
  | cons c t ih =>
    intro m h
    exact ih _ (processCourse_nodup m c h)

lemma foldl_processCourse_get_ne (cs : List SchedCourse) :
    ∀ (m : List (String × Course)) (k : String), k ∉ cs.map courseKey →
      dictGet (cs.foldl processCourse m) k = dictGet m k := by
  induction cs with
  | nil =>
    intro m k _
    rfl
  | cons c t ih =>
    intro m k hk
    simp only [List.map_cons, List.mem_cons, not_or] at hk
    rw [List.foldl_cons, ih _ k hk.2, processCourse_get_ne m c k hk.1]

lemma foldl_processCourse_desc (cs : List SchedCourse) :
    ∀ (m : List (String × Course)) (k : String),
      (∀ c', dictGet m k = some c' → c'.description = "") →
      ∀ c', dictGet (cs.foldl processCourse m) k = some c' →
        c'.description = "" := by
  induction cs with
  | nil =>
    intro m k h
    exact h
  | cons c t ih =>
    intro m k h
    exact ih _ k (processCourse_desc m c k h)

lemma schedKeys_cons (s : School) (t : List School) :
    schedKeys (s :: t) = s.courses.map courseKey ++ schedKeys t := by
  simp [schedKeys]

lemma mergeSchools_keys_mem (schools : List School) :
    ∀ (m : List (String × Course)) (k : String),
      k ∈ ((schools.foldl processSchool m).map Prod.fst) ↔
        k ∈ m.map Prod.fst ∨ k ∈ schedKeys schools := by
  induction schools with
  | nil =>
    intro m k
    simp [schedKeys]
  | cons s t ih =>
    intro m k
    rw [List.foldl_cons, ih]
    unfold processSchool
    rw [foldl_processCourse_keys_mem, schedKeys_cons]
    simp only [List.mem_append]
    tauto

lemma mergeSchools_nodup (schools : List School) :
    ∀ (m : List (String × Course)), (m.map Prod.fst).Nodup →
      ((schools.foldl processSchool m).map Prod.fst).Nodup := by
  induction schools with
  | nil =>
    intro m h
    exact h
  | cons s t ih =>
    intro m h
    exact ih _ (foldl_processCourse_nodup s.courses m h)

lemma mergeSchools_get_ne (schools : List School) :
    ∀ (m : List (String × Course)) (k : String), k ∉ schedKeys schools →
      dictGet (schools.foldl processSchool m) k = dictGet m k := by
  induction schools with
  | nil =>
    intro m k _
    rfl
  | cons s t ih =>
    intro m k hk
    rw [schedKeys_cons] at hk
    simp only [List.mem_append, not_or] at hk
    rw [List.foldl_cons, ih _ k hk.2]
    exact foldl_processCourse_get_ne s.courses m k hk.1

lemma mergeSchools_desc (schools : List School) :
    ∀ (m : List (String × Course)) (k : String),
      (∀ c', dictGet m k = some c' → c'.description = "") →
      ∀ c', dictGet (schools.foldl processSchool m) k = some c' →
        c'.description = "" := by
  induction schools with
  | nil =>
    intro m k h
    exact h
  | cons s t ih =>
    intro m k h
    exact ih _ k (foldl_processCourse_desc s.courses m k h)

/-! Invariants of the catalog seeding loop. -/

lemma foldl_seed_keys_mem (cat : List (String × CatalogItem)) :
    ∀ (m : List (String × Course)) (k : String),
      k ∈ ((cat.foldl (fun m kv => dictSet m kv.1 (catalogCourse kv.2)) m).map
        Prod.fst) ↔ k ∈ m.map Prod.fst ∨ k ∈ cat.map Prod.fst := by
  induction cat with
  | nil =>
    intro m k
    simp
  | cons kv t ih =>
    intro m k
    rw [List.foldl_cons, ih, dictSet_keys_mem]
    simp only [List.map_cons, List.mem_cons]
    tauto

lemma foldl_seed_nodup (cat : List (String × CatalogItem)) :
    ∀ (m : List (String × Course)), (m.map Prod.fst).Nodup →
      ((cat.foldl (fun m kv => dictSet m kv.1 (catalogCourse kv.2)) m).map
        Prod.fst).Nodup := by
  induction cat with
  | nil =>
    intro m h
    exact h
  | cons kv t ih =>
    intro m h
    exact ih _ (dictSet_keys_nodup m kv.1 (catalogCourse kv.2) h)

lemma foldl_seed_get_ne (cat : List (String × CatalogItem)) :
    ∀ (m : List (String × Course)) (k : String), k ∉ cat.map Prod.fst →
      dictGet
        (cat.foldl (fun m kv => dictSet m kv.1 (catalogCourse kv.2)) m) k =
        dictGet m k := by
  induction cat with
  | nil =>
    intro m k _
    rfl
  | cons kv t ih =>
    intro m k hk
    simp only [List.map_cons, List.mem_cons, not_or] at hk
    rw [List.foldl_cons, ih _ k hk.2,
      dictGet_dictSet_ne m kv.1 k (catalogCourse kv.2) hk.1]

lemma foldl_seed_sections (cat : List (String × CatalogItem)) :
    ∀ (m : List (String × Course)) (k : String),
      (∀ c', dictGet m k = some c' → c'.sections = []) →
      ∀ c',
        dictGet
          (cat.foldl (fun m kv => dictSet m kv.1 (catalogCourse kv.2)) m) k =
          some c' → c'.sections = [] := by
  induction cat with
  | nil =>
    intro m k h
    exact h
  | cons kv t ih =>
    intro m k h
    refine ih _ k ?_
    intro c' hc'
    by_cases hk : k = kv.1
    · subst hk
      rw [dictGet_dictSet_self] at hc'
      rw [← Option.some.inj hc']
      rfl
    · rw [dictGet_dictSet_ne m kv.1 k (catalogCourse kv.2) hk] at hc'
      exact h c' hc'

/-- C5: the merged course map contains exactly one course per key appearing
in either source; a key only in the catalog keeps an empty sections list and
a key only in the scheduling source gets an empty description. -/
theorem courseMergeUnion (catalog : List (String × CatalogItem))
    (schools : List School) :
    ((buildCoursesByKey catalog schools).map Prod.fst).Nodup ∧
    (∀ k, k ∈ (buildCoursesByKey catalog schools).map Prod.fst ↔
      k ∈ catalog.map Prod.fst ∨ k ∈ schedKeys schools) ∧
    (∀ k, k ∈ catalog.map Prod.fst → k ∉ schedKeys schools →
      ∃ c, dictGet (buildCoursesByKey catalog schools) k = some c ∧
        c.sections = []) ∧
    (∀ k, k ∉ catalog.map Prod.fst → k ∈ schedKeys schools →
      ∃ c, dictGet (buildCoursesByKey catalog schools) k = some c ∧
        c.description = "") := by
  have seedK : ∀ k, k ∈ (seedCatalog catalog).map Prod.fst ↔
      k ∈ catalog.map Prod.fst := by
    intro k
    unfold seedCatalog
    rw [foldl_seed_keys_mem]
    simp
  have seedN : ((seedCatalog catalog).map Prod.fst).Nodup := by
    unfold seedCatalog
    exact foldl_seed_nodup catalog [] (by simp)
  have seedS : ∀ k c', dictGet (seedCatalog catalog) k = some c' →
      c'.sections = [] := by
    intro k
    unfold seedCatalog
    refine foldl_seed_sections catalog [] k ?_
    intro c' h
    cases h
  have seedNone : ∀ k, k ∉ catalog.map Prod.fst →
      dictGet (seedCatalog catalog) k = none := by
    intro k hk
    unfold seedCatalog
    rw [foldl_seed_get_ne catalog [] k hk]
    rfl
  refine ⟨?_, ?_, ?_, ?_⟩
  · exact mergeSchools_nodup schools _ seedN
  · intro k
    unfold buildCoursesByKey
    rw [mergeSchools_keys_mem, seedK]
  · intro k hcat hsched
    have hget : dictGet (buildCoursesByKey catalog schools) k =
        dictGet (seedCatalog catalog) k :=
      mergeSchools_get_ne schools _ k hsched
    rcases dictGet_mem ((seedK k).mpr hcat) with ⟨c, hc⟩
    refine ⟨c, ?_, seedS k c hc⟩
    rw [hget]
    exact hc
  · intro k hcat hsched
    have hmem : k ∈ (buildCoursesByKey catalog schools).map Prod.fst := by
      unfold buildCoursesByKey
      rw [mergeSchools_keys_mem]
      exact Or.inr hsched
    rcases dictGet_mem hmem with ⟨c, hc⟩
    refine ⟨c, hc, ?_⟩
    refine mergeSchools_desc schools _ k ?_ c hc
    intro c' h
    rw [seedNone k hcat] at h
    cases h

/-- Concrete instantiation of `courseMergeUnion`: a catalog-only key keeps
an empty sections list and a scheduling-only key gets an empty
description. -/
theorem courseMergeUnion_witness :
    (∃ c, dictGet (buildCoursesByKey [("PHIL-1010", { subj := some "PHIL" })]
        [⟨[{ subj := some "CSCI", crse := some "2300" }]⟩]) "PHIL-1010" =
        some c ∧ c.sections = []) ∧
    (∃ c, dictGet (buildCoursesByKey [("PHIL-1010", { subj := some "PHIL" })]
        [⟨[{ subj := some "CSCI", crse := some "2300" }]⟩]) "CSCI-2300" =
        some c ∧ c.description = "") := by
  have h := courseMergeUnion [("PHIL-1010", { subj := some "PHIL" })]
    [⟨[{ subj := some "CSCI", crse := some "2300" }]⟩]
  exact ⟨h.2.2.1 "PHIL-1010" (by decide) (by decide),
    h.2.2.2 "CSCI-2300" (by decide) (by decide)⟩

end RPICentral
